import Mathlib

/-!
Shallow embedding of the feedback-loop hiring simulation
(`app/utils.py`, `app/metrics.py`, `app/simulation.py`).

Numbers are modelled as exact rationals (`ℚ`); the binary Shannon entropy,
which the code computes with `math.log2`, is modelled over `ℝ`.
Python's seeded PRNG (`random.Random(seed)`) is modelled as an abstract
deterministic stream of rational draws consumed one value per call:
`random()` yields the next stream value, `gauss(mu, sigma)` yields
`mu + sigma * v` for the next stream value `v`.  Python's `round(x, 6)`
(round half to even at the sixth decimal) is modelled exactly on `ℚ`.
-/

namespace FeedbackSim

/-- Translation of `utils.clamp`: `max(lo, min(hi, value))`, defaults `lo=0`, `hi=1`. -/
def clamp (value : ℚ) (lo : ℚ := 0) (hi : ℚ := 1) : ℚ :=
  max lo (min hi value)

/-- Translation of `utils.safe_div`: division that returns `default` when the
denominator is zero. -/
def safe_div (numerator denominator : ℚ) (default : ℚ := 0) : ℚ :=
  if denominator ≠ 0 then numerator / denominator else default

/-- Round-half-to-even to the nearest integer, as Python's `round` does. -/
def roundHalfEven (q : ℚ) : ℤ :=
  if q - ⌊q⌋ < 1/2 then ⌊q⌋
  else if 1/2 < q - ⌊q⌋ then ⌊q⌋ + 1
  else if ⌊q⌋ % 2 = 0 then ⌊q⌋ else ⌊q⌋ + 1

/-- Model of Python's `round(x, 6)`: round half to even at the sixth decimal. -/
def pyRound6 (q : ℚ) : ℚ :=
  (roundHalfEven (q * 1000000) : ℚ) / 1000000

/-- Model of Python's `int(x)` applied to a real value: truncation toward zero. -/
def pyInt (q : ℚ) : ℤ :=
  if 0 ≤ q then ⌊q⌋ else -⌊-q⌋

/-- Translation of `utils.shannon_entropy`: binary entropy, `0` outside `(0,1)`. -/
noncomputable def shannon_entropy (p : ℝ) : ℝ :=
  if p ≤ 0 ∨ 1 ≤ p then 0
  else -(p * Real.logb 2 p + (1 - p) * Real.logb 2 (1 - p))

/-- Model of `math.log2`, which raises `ValueError: math domain error` on a
nonpositive argument: the error branch is made explicit. -/
noncomputable def log2Checked (x : ℝ) : Except String ℝ :=
  if x ≤ 0 then Except.error "math domain error" else Except.ok (Real.logb 2 x)

/-- Translation of `utils.shannon_entropy` with the `math.log2` domain error
made explicit: the guard `p <= 0.0 or p >= 1.0` returns `0.0`, otherwise both
logarithms are taken through `log2Checked`. -/
noncomputable def shannon_entropyChecked (p : ℝ) : Except String ℝ :=
  if p ≤ 0 ∨ 1 ≤ p then Except.ok 0
  else do
    let l1 ← log2Checked p
    let l2 ← log2Checked (1 - p)
    Except.ok (-(p * l1 + (1 - p) * l2))

/-- Model of `random.Random(seed)`: an abstract stream of draws (fully
determined by the seed) together with the position of the next draw. -/
structure RNG where
  stream : ℕ → ℚ
  pos : ℕ

/-- Model of `rng.random()`: consume one draw. -/
def RNG.random (r : RNG) : ℚ × RNG :=
  (r.stream r.pos, ⟨r.stream, r.pos + 1⟩)

/-- Model of `rng.gauss(mu, sigma)`: consume one draw `v` and return
`mu + sigma * v` (the draw plays the role of the standard normal variate). -/
def RNG.gauss (r : RNG) (mu sigma : ℚ) : ℚ × RNG :=
  (mu + sigma * r.stream r.pos, ⟨r.stream, r.pos + 1⟩)

/-- Translation of the `Agent` dataclass in `simulation.py`. -/
structure Agent where
  group : String
  skill : ℚ
  trust_in_algorithm : ℚ
  adaptation_speed : ℚ
  risk_tolerance : ℚ
  preference_for_high : ℚ
deriving DecidableEq

instance : Inhabited Agent := ⟨⟨"A", 0, 0, 0, 0, 0⟩⟩

/-- Translation of the `HRDepartment` dataclass. -/
structure HRDepartment where
  trust_in_model : ℚ
  institutional_bias : ℚ
  hiring_threshold : ℚ
  hiring_capacity : ℚ
deriving DecidableEq

/-- Translation of the `Platform` dataclass; the two-key dict `p_high`
(keys `"A"` and `"B"`) is flattened into two fields with a keyed lookup. -/
structure Platform where
  learning_rate : ℚ
  diversity_regularization : ℚ
  feedback_weight : ℚ
  p_high_A : ℚ := 1/2
  p_high_B : ℚ := 1/2
deriving DecidableEq

/-- Lookup `platform.p_high[g]` for `g` one of `"A"`, `"B"`. -/
def Platform.p_high (pf : Platform) (g : String) : ℚ :=
  if g = "A" then pf.p_high_A else pf.p_high_B

/-- Translation of the `SimParams` dataclass with its defaults. -/
structure SimParams where
  n_agents : ℕ := 200
  group_imbalance : ℚ := 1/2
  seed : ℤ := 42
  t_user : ℚ := 7/10
  a_user : ℚ := 3/10
  r_user : ℚ := 1/5
  t_hr : ℚ := 3/5
  b_hr : ℚ := 3/20
  hiring_threshold : ℚ := 9/20
  hiring_capacity : ℚ := 3/10
  lr : ℚ := 1/4
  diversity_reg : ℚ := 1/10
  feedback_weight : ℚ := 3/5
  iterations : ℕ := 20
deriving DecidableEq

/-- One agent of the population loop in `run_simulation` (`simulation.py`,
step 1 of the function): group draw, clamped Gaussian skill, clamped noisy
initial preference, behavioral parameters copied from the parameters. -/
def mkAgent (params : SimParams) (r : RNG) : Agent × RNG :=
  let d := r.random
  let group := if d.1 < params.group_imbalance then "A" else "B"
  let gs := d.2.gauss (1/2) (3/20)
  let skill := clamp gs.1
  let gp := gs.2.gauss 0 (1/20)
  let pref := clamp (skill + gp.1)
  (⟨group, skill, params.t_user, params.a_user, params.r_user, pref⟩, gp.2)

/-- The population-creation loop: `n` agents drawn in order from the stream. -/
def mkAgents (params : SimParams) : ℕ → RNG → List Agent × RNG
  | 0, r => ([], r)
  | n + 1, r =>
    let ar := mkAgent params r
    let rest := mkAgents params n ar.2
    (ar.1 :: rest.1, rest.2)

/-- Translation of one `applicant_records` entry built in the per-agent loop. -/
structure ApplicantRecord where
  idx : ℕ
  group : String
  final_score : ℚ
  chosen_high : ℕ
  meets_threshold : Bool
deriving DecidableEq

/-- Result of processing one agent in the per-agent loop of an iteration. -/
structure AgentOutcome where
  shown : ℕ
  chosen : ℕ
  record : ApplicantRecord
  rng : RNG

/-- Steps 1–3 of the per-agent loop in `run_simulation`: platform exposure
draw, user action (trust / explore / own preference), HR scoring.  The draws
are consumed in the source's order: exposure draw, trust draw, then either an
exploration draw or a preference draw. -/
def agentStep (platform : Platform) (hr : HRDepartment) (i : ℕ) (agent : Agent)
    (r : RNG) : AgentOutcome :=
  let p_base := platform.p_high agent.group
  let p_final := clamp ((1 - platform.diversity_regularization) * p_base
    + platform.diversity_regularization * (1/2))
  let d1 := r.random
  let shown_high : ℕ := if d1.1 < p_final then 1 else 0
  let d2 := d1.2.random
  let co : ℕ × RNG :=
    if d2.1 < agent.trust_in_algorithm then
      let d3 := d2.2.random
      (if d3.1 < agent.risk_tolerance then 1 - shown_high else shown_high, d3.2)
    else
      let d3 := d2.2.random
      (if d3.1 < agent.preference_for_high then 1 else 0, d3.2)
  let model_score := agent.skill
  let human_score := agent.skill - (if agent.group = "B" then hr.institutional_bias else 0)
  let final_score := hr.trust_in_model * model_score + (1 - hr.trust_in_model) * human_score
  { shown := shown_high
    chosen := co.1
    record :=
      { idx := i
        group := agent.group
        final_score := final_score
        chosen_high := co.1
        meets_threshold := decide (final_score ≥ hr.hiring_threshold) }
    rng := co.2 }

/-- The per-agent accumulators of one iteration (`groups`, `shown_levels`,
`chosen_levels`, `applicant_records`) plus the advanced RNG. -/
structure PhaseOneOut where
  groups : List String
  shown_levels : List ℕ
  chosen_levels : List ℕ
  applicant_records : List ApplicantRecord
  rng : RNG

/-- The `for agent in agents` loop of one iteration: each agent is processed
in population order, appending to the four per-agent vectors; the record's
`idx` is its position (`len(applicant_records)` at append time). -/
def phaseOne (platform : Platform) (hr : HRDepartment) :
    List Agent → ℕ → RNG → PhaseOneOut
  | [], _, r => ⟨[], [], [], [], r⟩
  | a :: rest, i, r =>
    let o := agentStep platform hr i a r
    let tail := phaseOne platform hr rest (i + 1) o.rng
    ⟨a.group :: tail.groups, o.shown :: tail.shown_levels,
      o.chosen :: tail.chosen_levels, o.record :: tail.applicant_records, tail.rng⟩

/-- The `eligible` list: records meeting the threshold, in population order. -/
def eligibleOf (records : List ApplicantRecord) : List ApplicantRecord :=
  records.filter (fun r => r.meets_threshold)

/-- Stable insertion of a record into a list sorted by `final_score`
descending: the new record goes after every already-present record with a
greater-or-equal score.  Folding this over a list reproduces Python's stable
`list.sort(key=..., reverse=True)`. -/
def insertByScore (r : ApplicantRecord) :
    List ApplicantRecord → List ApplicantRecord
  | [] => [r]
  | x :: xs =>
    if r.final_score ≤ x.final_score then x :: insertByScore r xs
    else r :: x :: xs

/-- Model of `eligible.sort(key=lambda r: r["final_score"], reverse=True)`:
a stable sort by `final_score` descending. -/
def sortByScoreDesc (l : List ApplicantRecord) : List ApplicantRecord :=
  l.foldl (fun acc r => insertByScore r acc) []

/-- Translation of `max_accept = max(1, int(hr.hiring_capacity * len(applicant_records)))`. -/
def maxAccept (hr : HRDepartment) (n : ℕ) : ℕ :=
  (max 1 (pyInt (hr.hiring_capacity * n))).toNat

/-- The `accepted_set` of an iteration, as the list of accepted indices:
indices of the first `max_accept` records of the sorted eligible list. -/
def acceptedIdx (hr : HRDepartment) (records : List ApplicantRecord) : List ℕ :=
  ((sortByScoreDesc (eligibleOf records)).take (maxAccept hr records.length)).map
    (fun r => r.idx)

/-- The `user_chose_high[g]` accumulator: chosen levels of group `g` members,
in population order. -/
def userChoseHigh (g : String) (records : List ApplicantRecord) : List ℕ :=
  (records.filter (fun r => r.group = g)).map (fun r => r.chosen_high)

/-- The `hr_accepted_high[g]` accumulator: for each group-`g` record with
`chosen_high == 1`, in population order, whether it was accepted. -/
def hrAcceptedHigh (g : String) (records : List ApplicantRecord)
    (acc : List ℕ) : List Bool :=
  (records.filter (fun r => r.group = g ∧ r.chosen_high = 1)).map
    (fun r => acc.contains r.idx)

/-- Step 4 of an iteration for one group `g`: blend the user signal and the
HR signal and apply the clamped exponential-moving-average update to
`p_high[g]`. -/
def groupSignalUpdate (platform : Platform) (records : List ApplicantRecord)
    (acc : List ℕ) (g : String) : ℚ :=
  let u_list := userChoseHigh g records
  let user_signal := safe_div (u_list.sum : ℚ) (u_list.length : ℚ)
  let h_list := hrAcceptedHigh g records acc
  let hr_signal :=
    if h_list ≠ [] then safe_div ((h_list.countP id : ℕ) : ℚ) (h_list.length : ℚ)
    else user_signal
  let observed := platform.feedback_weight * user_signal
    + (1 - platform.feedback_weight) * hr_signal
  clamp ((1 - platform.learning_rate) * platform.p_high g
    + platform.learning_rate * observed)

/-- Translation of the `MetricSnapshot` dict of `metrics.py`: 13 named
values; all are rationals except the two entropies, which the code computes
with `math.log2` and are therefore modelled over `ℝ`. -/
structure MetricSnapshot where
  exposure_high_A : ℚ
  exposure_high_B : ℚ
  choice_high_A : ℚ
  choice_high_B : ℚ
  acceptance_rate_A : ℚ
  acceptance_rate_B : ℚ
  diversity_entropy_A : ℝ
  diversity_entropy_B : ℝ
  disparity_exposure : ℚ
  disparity_accept : ℚ
  reinforcement_index : ℚ
  p_high_A : ℚ
  p_high_B : ℚ

noncomputable instance : Inhabited MetricSnapshot :=
  ⟨⟨0, 0, 0, 0, 0, 0, 0, 0, 0, 0, 0, 0, 0⟩⟩

/-- Group size `n_g = sum(1 for g in groups if g == ...)` in
`compute_iteration_metrics`. -/
def nGroup (g : String) (groups : List String) : ℕ :=
  groups.countP (fun x => x = g)

/-- Unrounded per-group exposure rate of `compute_iteration_metrics`:
`safe_div(sum(s for g, s in zip(groups, shown_levels) if g == ...), n_g)`. -/
def exposureHigh (g : String) (groups : List String) (shown_levels : List ℕ) : ℚ :=
  safe_div (((((groups.zip shown_levels).filter (fun p => p.1 = g)).map
    (fun p => p.2)).sum : ℕ) : ℚ) ((nGroup g groups : ℕ) : ℚ)

/-- Unrounded per-group choice rate of `compute_iteration_metrics`. -/
def choiceHigh (g : String) (groups : List String) (chosen_levels : List ℕ) : ℚ :=
  safe_div (((((groups.zip chosen_levels).filter (fun p => p.1 = g)).map
    (fun p => p.2)).sum : ℕ) : ℚ) ((nGroup g groups : ℕ) : ℚ)

/-- Unrounded per-group acceptance rate of `compute_iteration_metrics`. -/
def acceptanceRate (g : String) (groups : List String) (accepted : List Bool) : ℚ :=
  safe_div (((groups.zip accepted).countP (fun p => p.1 = g ∧ p.2 = true) : ℕ) : ℚ)
    ((nGroup g groups : ℕ) : ℚ)

/-- Translation of `compute_iteration_metrics` (`metrics.py`): reduce one
iteration's per-agent vectors to the 13 named metrics, every output rounded
to 6 decimal digits. -/
noncomputable def compute_iteration_metrics (groups : List String)
    (shown_levels chosen_levels : List ℕ) (accepted : List Bool)
    (p_high_A p_high_B : ℚ) (prev_disparity_exposure : Option ℚ) :
    MetricSnapshot :=
  let exposure_high_A := exposureHigh "A" groups shown_levels
  let exposure_high_B := exposureHigh "B" groups shown_levels
  let choice_high_A := choiceHigh "A" groups chosen_levels
  let choice_high_B := choiceHigh "B" groups chosen_levels
  let acceptance_rate_A := acceptanceRate "A" groups accepted
  let acceptance_rate_B := acceptanceRate "B" groups accepted
  let diversity_entropy_A := shannon_entropy (exposure_high_A : ℝ)
  let diversity_entropy_B := shannon_entropy (exposure_high_B : ℝ)
  let disparity_exposure := exposure_high_A - exposure_high_B
  let disparity_accept := acceptance_rate_A - acceptance_rate_B
  let reinforcement_index :=
    match prev_disparity_exposure with
    | some d => disparity_exposure - d
    | none => (0 : ℚ)
  { exposure_high_A := pyRound6 exposure_high_A
    exposure_high_B := pyRound6 exposure_high_B
    choice_high_A := pyRound6 choice_high_A
    choice_high_B := pyRound6 choice_high_B
    acceptance_rate_A := pyRound6 acceptance_rate_A
    acceptance_rate_B := pyRound6 acceptance_rate_B
    diversity_entropy_A := diversity_entropy_A
    diversity_entropy_B := diversity_entropy_B
    disparity_exposure := pyRound6 disparity_exposure
    disparity_accept := pyRound6 disparity_accept
    reinforcement_index := pyRound6 reinforcement_index
    p_high_A := pyRound6 p_high_A
    p_high_B := pyRound6 p_high_B }

/-- The mutable state carried across iterations of `run_simulation`: the HR
parameter holder, the platform (with its learned `p_high`), the agents (with
their evolving preferences), the previously recorded exposure disparity, and
the RNG position. -/
structure SimState where
  hr : HRDepartment
  platform : Platform
  agents : List Agent
  prev_disparity : Option ℚ
  rng : RNG

/-- One full iteration of the `for _t in range(params.iterations)` loop:
per-agent phase, capacity-capped acceptance, platform feedback update for
groups `"A"` then `"B"`, per-agent preference update, metrics snapshot. -/
noncomputable def stepIteration (s : SimState) : SimState × MetricSnapshot :=
  let ph := phaseOne s.platform s.hr s.agents 0 s.rng
  let acc := acceptedIdx s.hr ph.applicant_records
  let accepted_flags := ph.applicant_records.map (fun r => acc.contains r.idx)
  let pA := groupSignalUpdate s.platform ph.applicant_records acc "A"
  let pB := groupSignalUpdate s.platform ph.applicant_records acc "B"
  let platform1 : Platform := { s.platform with p_high_A := pA, p_high_B := pB }
  let agents1 := (s.agents.zip ph.shown_levels).map (fun p =>
    { p.1 with preference_for_high := clamp ((1 - p.1.adaptation_speed) *
        p.1.preference_for_high + p.1.adaptation_speed * (p.2 : ℚ)) })
  let snap := compute_iteration_metrics ph.groups ph.shown_levels
    ph.chosen_levels accepted_flags pA pB s.prev_disparity
  ({ s with
      platform := platform1
      agents := agents1
      prev_disparity := some snap.disparity_exposure
      rng := ph.rng }, snap)

/-- The `HRDepartment` constructed by `run_simulation` from the parameters. -/
def hrOf (p : SimParams) : HRDepartment :=
  ⟨p.t_hr, p.b_hr, p.hiring_threshold, p.hiring_capacity⟩

/-- The `Platform` constructed by `run_simulation`: `p_high` starts at 0.5
for both groups. -/
def platformOf (p : SimParams) : Platform :=
  ⟨p.lr, p.diversity_reg, p.feedback_weight, 1/2, 1/2⟩

/-- The state of `run_simulation` just before the iteration loop: agents
generated from the seeded stream, fresh HR and platform, no previous
disparity. -/
def initState (p : SimParams) (stream : ℕ → ℚ) : SimState :=
  let ar := mkAgents p p.n_agents ⟨stream, 0⟩
  ⟨hrOf p, platformOf p, ar.1, none, ar.2⟩

/-- The state after `t` completed iterations of the loop. -/
noncomputable def simState (p : SimParams) (stream : ℕ → ℚ) : ℕ → SimState
  | 0 => initState p stream
  | t + 1 => (stepIteration (simState p stream t)).1

/-- The snapshot recorded by iteration `t` (0-based) of the loop. -/
noncomputable def iterSnapshot (p : SimParams) (stream : ℕ → ℚ) (t : ℕ) :
    MetricSnapshot :=
  (stepIteration (simState p stream t)).2

/-- The per-agent vectors produced by iteration `t` of the loop. -/
noncomputable def iterPhase (p : SimParams) (stream : ℕ → ℚ) (t : ℕ) :
    PhaseOneOut :=
  phaseOne (simState p stream t).platform (simState p stream t).hr
    (simState p stream t).agents 0 (simState p stream t).rng

/-- The `applicant_records` list built by iteration `t` of the loop. -/
noncomputable def iterRecords (p : SimParams) (stream : ℕ → ℚ) (t : ℕ) :
    List ApplicantRecord :=
  (iterPhase p stream t).applicant_records

/-- Return value of `run_simulation`: the ordered history of snapshots and
the echoed parameters. -/
structure SimResult where
  iterations : List MetricSnapshot
  params : SimParams

/-- Translation of `run_simulation` (`simulation.py`): generate the
population from the seeded stream, run exactly `params.iterations` rounds,
and return the ordered snapshot history together with the echoed
parameters. -/
noncomputable def run_simulation (p : SimParams) (stream : ℕ → ℚ) : SimResult :=
  ⟨(List.range p.iterations).map (iterSnapshot p stream), p⟩

/-!
Derived definitions used by the statements below: the range invariant, the
immutable per-agent attributes, the spec-side ranking of §4.4, and concrete
parameter values and draw streams for witnesses and counterexamples.
-/

/-- Range invariant of the mutable state: both learned exposure
probabilities and every agent preference lie in `[0,1]`. -/
def stateInRange (s : SimState) : Prop :=
  0 ≤ s.platform.p_high_A ∧ s.platform.p_high_A ≤ 1
  ∧ 0 ≤ s.platform.p_high_B ∧ s.platform.p_high_B ≤ 1
  ∧ ∀ a ∈ s.agents, 0 ≤ a.preference_for_high ∧ a.preference_for_high ≤ 1

/-- The per-agent attributes that stay fixed for the whole run. -/
def fixedAgentData (a : Agent) : String × ℚ × ℚ × ℚ × ℚ :=
  (a.group, a.skill, a.trust_in_algorithm, a.adaptation_speed, a.risk_tolerance)

/-- Ranking insertion as the spec words it (§4.4): a record is kept ahead of
the inserted one exactly when its `final_score` is strictly greater, or the
scores are equal and it has the smaller original population index (the
explicit tie-break). -/
def insertRanked (r : ApplicantRecord) :
    List ApplicantRecord → List ApplicantRecord
  | [] => [r]
  | x :: xs =>
    if x.final_score > r.final_score
        ∨ (x.final_score = r.final_score ∧ x.idx < r.idx) then
      x :: insertRanked r xs
    else r :: x :: xs

/-- The spec-side ranking of §4.4: descending by `final_score`, ties broken
by original population order. -/
def sortRankedSpec (l : List ApplicantRecord) : List ApplicantRecord :=
  l.foldl (fun acc r => insertRanked r acc) []

/-- Parameters with a zero iteration count (all other fields default). -/
def PZ : SimParams := { iterations := 0 }

/-- Small deterministic parameter set used by witnesses: two agents, one
iteration, every behavioral probability zero so no branch depends on a
nonzero draw, threshold 0 and capacity 1 so both agents are eligible. -/
def PW : SimParams :=
  { n_agents := 2, group_imbalance := 1/2, seed := 0, t_user := 0, a_user := 0,
    r_user := 0, t_hr := 1/2, b_hr := 0, hiring_threshold := 0,
    hiring_capacity := 1, lr := 1/4, diversity_reg := 0, feedback_weight := 1/2,
    iterations := 1 }

/-- Parameters for the rounding counterexample: 9 agents, one iteration,
agents never trust the algorithm and never choose HIGH, nobody is eligible. -/
def P5 : SimParams :=
  { n_agents := 9, group_imbalance := 1/2, seed := 0, t_user := 0, a_user := 0,
    r_user := 0, t_hr := 1/2, b_hr := 0, hiring_threshold := 1,
    hiring_capacity := 0, lr := 0, diversity_reg := 0, feedback_weight := 0,
    iterations := 1 }

/-- Draw stream for `P5`: creation draws put agents 0–2 in group A and
agents 3–8 in group B with skill and preference exactly 0.5; in the single
iteration exactly agents 0 and 3 are shown HIGH (exposure probability stays
0.5), every trust draw fails and every preference draw yields LOW. -/
def S5 (n : ℕ) : ℚ :=
  if n < 27 then (if n % 3 = 0 ∧ 9 ≤ n then 3/4 else 0)
  else
    let m := n - 27
    let j := m / 3
    if m % 3 = 0 then (if j = 0 ∨ j = 3 then 1/4 else 3/4)
    else if m % 3 = 1 then 0 else 3/4

/-- Parameters for the reinforcement-index counterexample: 129 agents, two
iterations, learning and adaptation rates zero so the exposure probability
stays exactly 0.5 in the second iteration. -/
def P6 : SimParams :=
  { n_agents := 129, group_imbalance := 1/2, seed := 0, t_user := 0, a_user := 0,
    r_user := 0, t_hr := 1/2, b_hr := 0, hiring_threshold := 1,
    hiring_capacity := 0, lr := 0, diversity_reg := 0, feedback_weight := 0,
    iterations := 2 }

/-- Draw stream for `P6`: agents 0–127 land in group A and agent 128 in
group B; in iteration 0 exactly agents 0 and 1 are shown HIGH (group-A
exposure 2/128 = 0.015625), in iteration 1 exactly agent 0 is (exposure
1/128 = 0.0078125, whose sixth decimal is an exact rounding tie). -/
def S6 (n : ℕ) : ℚ :=
  if n < 387 then (if n % 3 = 0 ∧ 384 ≤ n then 3/4 else 0)
  else
    let m := n - 387
    let t := m / 387
    let j := (m % 387) / 3
    if m % 3 = 0 then (if (t = 0 ∧ j < 2) ∨ (t = 1 ∧ j = 0) then 1/4 else 3/4)
    else if m % 3 = 1 then 0 else 3/4

/-!
Helper lemmas shared by the claim theorems.
-/

theorem clamp01_bounds (x : ℚ) : 0 ≤ clamp x ∧ clamp x ≤ 1 :=
  ⟨le_max_left 0 _, max_le (by norm_num) (min_le_left 1 x)⟩

theorem groupSignalUpdate_bounds (pf : Platform) (records : List ApplicantRecord)
    (acc : List ℕ) (g : String) :
    0 ≤ groupSignalUpdate pf records acc g ∧ groupSignalUpdate pf records acc g ≤ 1 :=
  clamp01_bounds _

theorem stepIteration_inRange (s : SimState) : stateInRange (stepIteration s).1 := by
  refine ⟨?_, ?_, ?_, ?_, ?_⟩
  · exact (groupSignalUpdate_bounds _ _ _ _).1
  · exact (groupSignalUpdate_bounds _ _ _ _).2
  · exact (groupSignalUpdate_bounds _ _ _ _).1
  · exact (groupSignalUpdate_bounds _ _ _ _).2
  · intro a ha
    simp only [stepIteration, List.mem_map] at ha
    obtain ⟨q, _, rfl⟩ := ha
    exact clamp01_bounds _

theorem phaseOne_shown_length (pf : Platform) (hr : HRDepartment) :
    ∀ (agents : List Agent) (i : ℕ) (r : RNG),
      (phaseOne pf hr agents i r).shown_levels.length = agents.length := by
  intro agents
  induction agents with
  | nil => intro i r; rfl
  | cons a rest ih =>
    intro i r
    simp [phaseOne, ih]

theorem phaseOne_records_length (pf : Platform) (hr : HRDepartment) :
    ∀ (agents : List Agent) (i : ℕ) (r : RNG),
      (phaseOne pf hr agents i r).applicant_records.length = agents.length := by
  intro agents
  induction agents with
  | nil => intro i r; rfl
  | cons a rest ih =>
    intro i r
    simp [phaseOne, ih]

theorem map_fixed_of_zip :
    ∀ (l : List Agent) (sh : List ℕ), l.length ≤ sh.length →
      ((l.zip sh).map (fun p =>
        { p.1 with preference_for_high := clamp ((1 - p.1.adaptation_speed) *
            p.1.preference_for_high + p.1.adaptation_speed * (p.2 : ℚ)) })).map fixedAgentData
        = l.map fixedAgentData := by
  intro l
  induction l with
  | nil => intro sh _; rfl
  | cons a rest ih =>
    intro sh hlen
    cases sh with
    | nil => simp at hlen
    | cons v vs =>
      simp only [List.zip_cons_cons, List.map_cons]
      rw [ih vs (by simpa using hlen)]
      rfl

theorem stepIteration_fixed (s : SimState) :
    (stepIteration s).1.hr = s.hr
    ∧ (stepIteration s).1.platform.learning_rate = s.platform.learning_rate
    ∧ (stepIteration s).1.platform.diversity_regularization = s.platform.diversity_regularization
    ∧ (stepIteration s).1.platform.feedback_weight = s.platform.feedback_weight
    ∧ (stepIteration s).1.agents.map fixedAgentData = s.agents.map fixedAgentData := by
  refine ⟨rfl, rfl, rfl, rfl, ?_⟩
  exact map_fixed_of_zip s.agents _
    (le_of_eq (phaseOne_shown_length s.platform s.hr s.agents 0 s.rng).symm)

theorem mkAgents_length (p : SimParams) :
    ∀ (n : ℕ) (r : RNG), (mkAgents p n r).1.length = n := by
  intro n
  induction n with
  | zero => intro r; rfl
  | succ m ih =>
    intro r
    simp [mkAgents, ih]

theorem simState_agents_length (p : SimParams) (stream : ℕ → ℚ) (t : ℕ) :
    (simState p stream t).agents.length = p.n_agents := by
  induction t with
  | zero => exact mkAgents_length p p.n_agents ⟨stream, 0⟩
  | succ n ih =>
    have hs := stepIteration_fixed (simState p stream n)
    have h2 := congrArg List.length hs.2.2.2.2
    simp only [List.length_map] at h2
    exact h2.trans ih

theorem iterRecords_length (p : SimParams) (stream : ℕ → ℚ) (t : ℕ) :
    (iterRecords p stream t).length = p.n_agents := by
  rw [iterRecords, iterPhase, phaseOne_records_length]
  exact simState_agents_length p stream t

theorem mem_insertByScore (r x : ApplicantRecord) :
    ∀ l, x ∈ insertByScore r l ↔ x = r ∨ x ∈ l := by
  intro l
  induction l with
  | nil => simp [insertByScore]
  | cons y ys ih =>
    simp only [insertByScore]
    by_cases h : r.final_score ≤ y.final_score
    · rw [if_pos h]
      simp only [List.mem_cons, ih]
      tauto
    · rw [if_neg h]
      exact List.mem_cons

theorem length_insertByScore (r : ApplicantRecord) :
    ∀ l, (insertByScore r l).length = l.length + 1 := by
  intro l
  induction l with
  | nil => rfl
  | cons y ys ih =>
    simp only [insertByScore]
    by_cases h : r.final_score ≤ y.final_score
    · rw [if_pos h]
      simp [ih]
    · rw [if_neg h]
      simp

theorem mem_sortFold (x : ApplicantRecord) :
    ∀ (l acc : List ApplicantRecord),
      x ∈ l.foldl (fun a r => insertByScore r a) acc ↔ x ∈ acc ∨ x ∈ l := by
  intro l
  induction l with
  | nil => simp
  | cons y ys ih =>
    intro acc
    rw [List.foldl_cons, ih, mem_insertByScore]
    simp only [List.mem_cons]
    tauto

theorem mem_sortByScoreDesc (x : ApplicantRecord) (l : List ApplicantRecord) :
    x ∈ sortByScoreDesc l ↔ x ∈ l := by
  rw [sortByScoreDesc, mem_sortFold]
  simp

theorem length_sortFold :
    ∀ (l acc : List ApplicantRecord),
      (l.foldl (fun a r => insertByScore r a) acc).length = acc.length + l.length := by
  intro l
  induction l with
  | nil => simp
  | cons y ys ih =>
    intro acc
    rw [List.foldl_cons, ih, length_insertByScore]
    simp only [List.length_cons]
    omega

theorem length_sortByScoreDesc (l : List ApplicantRecord) :
    (sortByScoreDesc l).length = l.length := by
  rw [sortByScoreDesc, length_sortFold]
  simp

theorem max_one_pyInt_eq_floor (q : ℚ) : max 1 (pyInt q) = max 1 ⌊q⌋ := by
  unfold pyInt
  by_cases h : 0 ≤ q
  · rw [if_pos h]
  · rw [if_neg h]
    push_neg at h
    have h1 : ⌊q⌋ ≤ 0 := by
      have := Int.floor_le_floor (le_of_lt h)
      simpa using this
    have h2 : 0 ≤ ⌊-q⌋ := Int.floor_nonneg.2 (by linarith)
    rw [max_eq_left (by omega), max_eq_left (by omega)]

theorem maxAccept_cast (hr : HRDepartment) (n : ℕ) :
    ((maxAccept hr n : ℕ) : ℤ) = max 1 ⌊hr.hiring_capacity * (n : ℚ)⌋ := by
  rw [maxAccept, Int.toNat_of_nonneg (le_trans (by norm_num) (le_max_left 1 _))]
  exact max_one_pyInt_eq_floor _

theorem mem_insertRanked (r x : ApplicantRecord) :
    ∀ l, x ∈ insertRanked r l ↔ x = r ∨ x ∈ l := by
  intro l
  induction l with
  | nil => simp [insertRanked]
  | cons y ys ih =>
    simp only [insertRanked]
    by_cases h : y.final_score > r.final_score
        ∨ (y.final_score = r.final_score ∧ y.idx < r.idx)
    · rw [if_pos h]
      simp only [List.mem_cons, ih]
      tauto
    · rw [if_neg h]
      exact List.mem_cons

theorem insertByScore_eq_insertRanked (r : ApplicantRecord) :
    ∀ l, (∀ x ∈ l, x.idx < r.idx) → insertByScore r l = insertRanked r l := by
  intro l
  induction l with
  | nil => intro _; rfl
  | cons y ys ih =>
    intro hidx
    have hy : y.idx < r.idx := hidx y (List.mem_cons_self y ys)
    have hcond : (r.final_score ≤ y.final_score)
        ↔ (y.final_score > r.final_score
            ∨ (y.final_score = r.final_score ∧ y.idx < r.idx)) := by
      constructor
      · intro hle
        rcases lt_or_eq_of_le hle with hlt | heq
        · exact Or.inl hlt
        · exact Or.inr ⟨heq.symm, hy⟩
      · rintro (hlt | ⟨heq, _⟩)
        · exact le_of_lt hlt
        · exact le_of_eq heq.symm
    simp only [insertByScore, insertRanked]
    by_cases h : r.final_score ≤ y.final_score
    · rw [if_pos h, if_pos (hcond.1 h), ih (fun x hx => hidx x (List.mem_cons_of_mem y hx))]
    · rw [if_neg h, if_neg (fun hc => h (hcond.2 hc))]

theorem sortFold_eq_rankedFold :
    ∀ (l acc : List ApplicantRecord),
      (∀ x ∈ acc, ∀ y ∈ l, x.idx < y.idx) →
      List.Pairwise (fun a b => a.idx < b.idx) l →
      l.foldl (fun a r => insertByScore r a) acc
        = l.foldl (fun a r => insertRanked r a) acc := by
  intro l
  induction l with
  | nil => intro acc _ _; rfl
  | cons y ys ih =>
    intro acc hacc hpair
    rw [List.pairwise_cons] at hpair
    rw [List.foldl_cons, List.foldl_cons,
      insertByScore_eq_insertRanked y acc (fun x hx => hacc x hx y (List.mem_cons_self y ys))]
    apply ih
    · intro x hx z hz
      rcases (mem_insertRanked y x acc).1 hx with rfl | hxacc
      · exact hpair.1 z hz
      · exact hacc x hxacc z (List.mem_cons_of_mem y hz)
    · exact hpair.2

theorem sortByScoreDesc_eq_sortRankedSpec (l : List ApplicantRecord)
    (h : List.Pairwise (fun a b => a.idx < b.idx) l) :
    sortByScoreDesc l = sortRankedSpec l :=
  sortFold_eq_rankedFold l [] (by simp) h

theorem phaseOne_idx_lower_bound (pf : Platform) (hr : HRDepartment) :
    ∀ (agents : List Agent) (i : ℕ) (r : RNG),
      ∀ x ∈ (phaseOne pf hr agents i r).applicant_records, i ≤ x.idx := by
  intro agents
  induction agents with
  | nil => intro i r x hx; simp [phaseOne] at hx
  | cons a rest ih =>
    intro i r x hx
    simp only [phaseOne, List.mem_cons] at hx
    rcases hx with rfl | hx
    · exact le_refl _
    · exact le_trans (Nat.le_succ i) (ih (i + 1) _ x hx)

theorem phaseOne_idx_pairwise (pf : Platform) (hr : HRDepartment) :
    ∀ (agents : List Agent) (i : ℕ) (r : RNG),
      List.Pairwise (fun a b => a.idx < b.idx)
        (phaseOne pf hr agents i r).applicant_records := by
  intro agents
  induction agents with
  | nil => intro i r; simp [phaseOne]
  | cons a rest ih =>
    intro i r
    simp only [phaseOne]
    rw [List.pairwise_cons]
    constructor
    · intro x hx
      exact lt_of_lt_of_le (Nat.lt_succ_self i)
        (phaseOne_idx_lower_bound pf hr rest (i + 1) _ x hx)
    · exact ih (i + 1) _

theorem pyRound6_zero : pyRound6 0 = 0 := by
  with_unfolding_all rfl

/-!
Claim theorems.
-/

/-- C1: two invocations of `run_simulation` with identical parameters and
the same underlying draw stream (same seed) return bit-identical results:
the same ordered snapshot history, and the same echoed parameters. -/
theorem run_simulation_deterministic :
    ∀ (p1 p2 : SimParams) (s1 s2 : ℕ → ℚ), p1 = p2 → s1 = s2 →
      (run_simulation p1 s1).iterations = (run_simulation p2 s2).iterations
      ∧ (run_simulation p1 s1).params = (run_simulation p2 s2).params := by
  intro p1 p2 s1 s2 hp hs
  subst hp
  subst hs
  exact ⟨rfl, rfl⟩

/-- Witness for C1 at the default parameters and the all-zero draw stream. -/
theorem run_simulation_deterministic_witness :
    (run_simulation {} (fun _ => 0)).iterations = (run_simulation {} (fun _ => 0)).iterations
    ∧ (run_simulation {} (fun _ => 0)).params = (run_simulation {} (fun _ => 0)).params :=
  run_simulation_deterministic {} {} (fun _ => 0) (fun _ => 0) rfl rfl

/-- C2: after every iteration of every run — for any parameter values,
in or out of their documented ranges — both platform exposure probabilities
and every agent's preference lie in `[0,1]`, because every update of those
quantities is re-clamped. -/
theorem state_in_range_after_each_iteration :
    ∀ (p : SimParams) (stream : ℕ → ℚ) (t : ℕ),
      stateInRange (simState p stream (t + 1)) :=
  fun p stream t => stepIteration_inRange (simState p stream t)

/-- Witness for C2: the invariant after the first iteration of a concrete run. -/
theorem state_in_range_after_each_iteration_witness :
    stateInRange (simState PW (fun _ => 0) 1) :=
  state_in_range_after_each_iteration PW (fun _ => 0) 0

/-- C3: in every iteration of every run, the accepted indices all belong to
the eligible records; the records count the whole population; the number of
accepted agents is at most `max 1 ⌊hiring_capacity * N⌋`; and whenever the
number of eligible agents is at most that cap, exactly the eligible agents
are accepted. -/
theorem accepted_subset_and_cap :
    ∀ (p : SimParams) (stream : ℕ → ℚ) (t : ℕ),
      (∀ i ∈ acceptedIdx (simState p stream t).hr (iterRecords p stream t),
          i ∈ (eligibleOf (iterRecords p stream t)).map (fun r => r.idx))
      ∧ (iterRecords p stream t).length = p.n_agents
      ∧ ((acceptedIdx (simState p stream t).hr (iterRecords p stream t)).length : ℤ)
          ≤ max 1 ⌊(simState p stream t).hr.hiring_capacity * ((iterRecords p stream t).length : ℚ)⌋
      ∧ ((((eligibleOf (iterRecords p stream t)).length : ℤ)
            ≤ max 1 ⌊(simState p stream t).hr.hiring_capacity * ((iterRecords p stream t).length : ℚ)⌋) →
          ∀ i, (i ∈ acceptedIdx (simState p stream t).hr (iterRecords p stream t)
            ↔ i ∈ (eligibleOf (iterRecords p stream t)).map (fun r => r.idx))) := by
  intro p stream t
  refine ⟨?_, iterRecords_length p stream t, ?_, ?_⟩
  · intro i hi
    rw [acceptedIdx, List.mem_map] at hi
    obtain ⟨r, hmem, rfl⟩ := hi
    have hs : r ∈ sortByScoreDesc (eligibleOf (iterRecords p stream t)) :=
      List.take_subset _ _ hmem
    rw [mem_sortByScoreDesc] at hs
    exact List.mem_map.2 ⟨r, hs, rfl⟩
  · rw [acceptedIdx, List.length_map, ← maxAccept_cast]
    exact_mod_cast List.length_take_le _ _
  · intro hle i
    rw [← maxAccept_cast] at hle
    have hk : (eligibleOf (iterRecords p stream t)).length
        ≤ maxAccept (simState p stream t).hr (iterRecords p stream t).length := by
      exact_mod_cast hle
    rw [acceptedIdx, List.take_of_length_le (by rw [length_sortByScoreDesc]; exact hk)]
    simp only [List.mem_map]
    constructor
    · rintro ⟨r, hmem, rfl⟩
      exact ⟨r, (mem_sortByScoreDesc r _).1 hmem, rfl⟩
    · rintro ⟨r, hmem, rfl⟩
      exact ⟨r, (mem_sortByScoreDesc r _).2 hmem, rfl⟩

/-- Witness for C3 on a concrete two-agent run where both agents are
eligible and the capacity covers them. -/
theorem accepted_subset_and_cap_witness :
    0 ∈ acceptedIdx (simState PW (fun _ => 0) 0).hr (iterRecords PW (fun _ => 0) 0)
      ↔ 0 ∈ (eligibleOf (iterRecords PW (fun _ => 0) 0)).map (fun r => r.idx) :=
  (accepted_subset_and_cap PW (fun _ => 0) 0).2.2.2
    (of_decide_eq_true (by with_unfolding_all rfl)) 0

/-- C4: in every iteration of every run, the accepted indices are exactly
the first `max 1 ⌊hiring_capacity * N⌋` eligible records under the spec's
ranking — descending `final_score`, ties broken by original population
order (the earlier-generated agent wins). -/
theorem accepted_are_top_ranked :
    ∀ (p : SimParams) (stream : ℕ → ℚ) (t : ℕ),
      acceptedIdx (simState p stream t).hr (iterRecords p stream t)
        = ((sortRankedSpec (eligibleOf (iterRecords p stream t))).take
            (maxAccept (simState p stream t).hr (iterRecords p stream t).length)).map
              (fun r => r.idx) := by
  intro p stream t
  rw [acceptedIdx, sortByScoreDesc_eq_sortRankedSpec]
  exact List.Pairwise.filter _ (phaseOne_idx_pairwise _ _ _ 0 _)

/-- C5 counterexample: a one-iteration run in which the recorded
`disparity_exposure` is `0.166667` (the rounding of the unrounded
difference `1/3 - 1/6`) while the recorded `exposure_high_A` minus the
recorded `exposure_high_B` is `0.333333 - 0.166667 = 0.166666`: the claimed
identity on the stored rounded fields fails by one millionth. -/
theorem disparity_rounding_cex :
    ((run_simulation P5 S5).iterations.map (fun s => s.disparity_exposure))
        = [166667/1000000]
    ∧ ((run_simulation P5 S5).iterations.map
          (fun s => s.exposure_high_A - s.exposure_high_B))
        = [166666/1000000]
    ∧ (166667/1000000 : ℚ) ≠ 166666/1000000 := by
  refine ⟨?_, ?_, ?_⟩
  · with_unfolding_all rfl
  · with_unfolding_all rfl
  · intro h
    exact absurd h (by norm_num)

/-- C5 amended: for every iteration snapshot, the stored exposure fields are
the 6-decimal roundings of the unrounded per-group exposure rates, and the
stored `disparity_exposure` is the 6-decimal rounding of the difference of
the unrounded rates — the subtraction happens before the rounding, not on
the stored rounded fields. -/
theorem disparity_is_rounded_difference :
    ∀ (p : SimParams) (stream : ℕ → ℚ) (t : ℕ),
      (iterSnapshot p stream t).exposure_high_A
          = pyRound6 (exposureHigh "A" (iterPhase p stream t).groups
              (iterPhase p stream t).shown_levels)
      ∧ (iterSnapshot p stream t).exposure_high_B
          = pyRound6 (exposureHigh "B" (iterPhase p stream t).groups
              (iterPhase p stream t).shown_levels)
      ∧ (iterSnapshot p stream t).disparity_exposure
          = pyRound6 (exposureHigh "A" (iterPhase p stream t).groups
                (iterPhase p stream t).shown_levels
              - exposureHigh "B" (iterPhase p stream t).groups
                (iterPhase p stream t).shown_levels) := by
  intro p stream t
  exact ⟨rfl, rfl, rfl⟩

set_option maxRecDepth 200000 in
/-- C6 counterexample: a two-iteration run whose recorded exposure
disparities are `0.015625` and `0.007812` (iteration 1's unrounded
disparity `1/128 = 0.0078125` is an exact rounding tie, rounded half to
even), while the recorded `reinforcement_index` of iteration 1 is
`-0.007812` — not the difference `0.007812 - 0.015625 = -0.007813` of the
recorded disparities claimed. -/
theorem reinforcement_index_cex :
    ((run_simulation P6 S6).iterations.map (fun s => s.disparity_exposure))
        = [15625/1000000, 7812/1000000]
    ∧ ((run_simulation P6 S6).iterations.map (fun s => s.reinforcement_index))
        = [0, -7812/1000000]
    ∧ (-7812/1000000 : ℚ) ≠ 7812/1000000 - 15625/1000000 := by
  refine ⟨?_, ?_, ?_⟩
  · with_unfolding_all rfl
  · with_unfolding_all rfl
  · intro h
    exact absurd h (by norm_num)

/-- C6 amended: the first iteration records `reinforcement_index = 0`; every
later iteration records the 6-decimal rounding of (its unrounded exposure
disparity minus the previous iteration's recorded disparity).  This equals
the difference of the recorded disparities except when the unrounded
disparity falls on an exact rounding tie. -/
theorem reinforcement_is_rounded_change :
    ∀ (p : SimParams) (stream : ℕ → ℚ),
      (iterSnapshot p stream 0).reinforcement_index = 0
      ∧ ∀ t : ℕ,
        (iterSnapshot p stream (t + 1)).reinforcement_index
          = pyRound6 ((exposureHigh "A" (iterPhase p stream (t + 1)).groups
                (iterPhase p stream (t + 1)).shown_levels
              - exposureHigh "B" (iterPhase p stream (t + 1)).groups
                (iterPhase p stream (t + 1)).shown_levels)
              - (iterSnapshot p stream t).disparity_exposure) := by
  intro p stream
  constructor
  · show pyRound6 0 = 0
    exact pyRound6_zero
  · intro t
    rfl

/-- C7 counterexample: with `lo = 1 > hi = 0` the interval `[lo, hi]` is
empty, so `clamp 0 1 0 = 1` is not in it — the universal claim fails
without the precondition `lo ≤ hi`. -/
theorem clamp_cex : ¬ ((1:ℚ) ≤ clamp 0 1 0 ∧ clamp 0 1 0 ≤ 0) := by
  simp [clamp]

/-- C7 amended: whenever `lo ≤ hi`, `clamp x lo hi` lies in `[lo, hi]`; and
with the default bounds, `clamp 1.5 = 1` and `clamp (-0.2) = 0`. -/
theorem clamp_spec :
    (∀ x lo hi : ℚ, lo ≤ hi → lo ≤ clamp x lo hi ∧ clamp x lo hi ≤ hi)
    ∧ clamp (3/2) = 1 ∧ clamp (-(1/5)) = 0 := by
  refine ⟨fun x lo hi h => ⟨le_max_left lo _, max_le h (min_le_left hi x)⟩, ?_, ?_⟩
  · simp only [clamp]
    rw [min_eq_left (by norm_num), max_eq_right (by norm_num)]
  · simp only [clamp]
    rw [min_eq_right (by norm_num), max_eq_left (by norm_num)]

/-- Witness for C7's amended claim at `x = 5`, `lo = 0`, `hi = 1`. -/
theorem clamp_spec_witness : 0 ≤ clamp 5 0 1 ∧ clamp 5 0 1 ≤ 1 :=
  clamp_spec.1 5 0 1 (by norm_num)

/-- C8: every run executes exactly `iterations` rounds — the history has
exactly `iterations` snapshots, with no early termination, and a zero
iteration count yields an empty history. -/
theorem run_simulation_iteration_count :
    ∀ (p : SimParams) (stream : ℕ → ℚ),
      (run_simulation p stream).iterations.length = p.iterations
      ∧ (p.iterations = 0 → (run_simulation p stream).iterations = []) := by
  intro p stream
  constructor
  · simp [run_simulation]
  · intro h
    simp [run_simulation, h]

/-- Witness for C8 at a zero iteration count. -/
theorem run_simulation_iteration_count_witness :
    (run_simulation PZ (fun _ => 0)).iterations = [] :=
  (run_simulation_iteration_count PZ (fun _ => 0)).2 rfl

/-- C9: across every iteration of a run, only the platform's `p_high` and
each agent's `preference_for_high` change: the HR parameter holder, the
platform's `learning_rate`, `diversity_regularization` and
`feedback_weight`, and every agent's `group`, `skill`,
`trust_in_algorithm`, `adaptation_speed` and `risk_tolerance` are the same
after `t` iterations as at the start of the run. -/
theorem run_only_mutates_p_high_and_preference :
    ∀ (p : SimParams) (stream : ℕ → ℚ) (t : ℕ),
      (simState p stream t).hr = (simState p stream 0).hr
      ∧ (simState p stream t).platform.learning_rate
          = (simState p stream 0).platform.learning_rate
      ∧ (simState p stream t).platform.diversity_regularization
          = (simState p stream 0).platform.diversity_regularization
      ∧ (simState p stream t).platform.feedback_weight
          = (simState p stream 0).platform.feedback_weight
      ∧ (simState p stream t).agents.map fixedAgentData
          = (simState p stream 0).agents.map fixedAgentData := by
  intro p stream t
  induction t with
  | zero => exact ⟨rfl, rfl, rfl, rfl, rfl⟩
  | succ n ih =>
    have hs := stepIteration_fixed (simState p stream n)
    exact ⟨hs.1.trans ih.1, hs.2.1.trans ih.2.1, hs.2.2.1.trans ih.2.2.1,
      hs.2.2.2.1.trans ih.2.2.2.1, hs.2.2.2.2.trans ih.2.2.2.2⟩

/-- C10: `shannon_entropy` is total over all real inputs — the checked
version (with `math.log2`'s domain error made explicit) never takes the
error branch and agrees with the direct definition — and it returns exactly
0 whenever `p ≤ 0` or `p ≥ 1`, including out-of-range inputs. -/
theorem shannon_entropy_total :
    ∀ p : ℝ, shannon_entropyChecked p = Except.ok (shannon_entropy p)
      ∧ ((p ≤ 0 ∨ 1 ≤ p) → shannon_entropy p = 0) := by
  intro p
  by_cases h : p ≤ 0 ∨ 1 ≤ p
  · constructor
    · simp [shannon_entropyChecked, shannon_entropy, h]
    · intro _
      simp [shannon_entropy, h]
  · have h1 : 0 < p := lt_of_not_le fun hle => h (Or.inl hle)
    have h2 : p < 1 := lt_of_not_le fun hle => h (Or.inr hle)
    have h3 : ¬ p ≤ 0 := not_le.mpr h1
    have h4 : ¬ (1 - p) ≤ 0 := not_le.mpr (by linarith)
    constructor
    · simp only [shannon_entropyChecked, shannon_entropy, log2Checked,
        if_neg h, if_neg h3, if_neg h4]
      rfl
    · intro hc
      exact absurd hc h

/-- Witness for C10 at the out-of-range input `p = 2`. -/
theorem shannon_entropy_total_witness : shannon_entropy 2 = 0 :=
  (shannon_entropy_total 2).2 (Or.inr (by norm_num))

end FeedbackSim
